import Mathlib

/- Batteries marks the `Rat` arithmetic operations `@[irreducible]`, which
blocks `decide`-style evaluation of the executable model on concrete
inputs.  Restore ordinary reducibility so that witnesses and
counterexamples below can evaluate the embedded code. -/
set_option allowUnsafeReducibility true
attribute [semireducible] Rat.add Rat.sub Rat.mul Rat.inv Rat.ofScientific

/-!
Verification of the paper-trading execution core of the Agora-Protocol
repository: the `PaperWallet` ledger (src/execution/paper_wallet.py) and the
`OrderExecutor` engine (src/execution/order_executor.py).

The Python code is shallowly embedded here.  Python floats are modelled by
exact rationals (`ℚ`), as the specification's "exactly" equations demand.
Python dictionaries holding balances are modelled by insertion-ordered
association lists.  A Python exception escaping a call is modelled by
`Except.error`; a normal `return None` by `Except.ok` carrying `none`.
The deliberate latency injection (`time.sleep(random.uniform(0.05, 0.2))`)
has no observable effect on wallet state or results and is not modelled.
-/

namespace Agora

/-- A balance ledger: asset symbol → quantity, insertion ordered,
as a Python dict of floats (`PaperWallet.balances`). -/
abbrev Balances := List (String × ℚ)

/-- `self.balances.get(currency, 0.0)` — an absent asset reads as zero.
Embeds `PaperWallet.get_balance`. -/
def get_balance (bs : Balances) (currency : String) : ℚ :=
  match bs with
  | [] => 0
  | (c, v) :: rest => if c = currency then v else get_balance rest currency

/-- `self.balances[currency] = v`: update the entry in place if the key is
present, otherwise append it at the end (Python dicts keep insertion order
and have unique keys, so updating the first occurrence is exact). -/
def setBalance (bs : Balances) (currency : String) (v : ℚ) : Balances :=
  match bs with
  | [] => [(currency, v)]
  | (c, w) :: rest =>
    if c = currency then (currency, v) :: rest
    else (c, w) :: setBalance rest currency v

/-- Embeds `PaperWallet.deposit`: a negative amount is rejected with no
mutation; otherwise the asset's balance grows by `amount`.  (The `save()`
persistence write has no effect on in-memory state and is not modelled.) -/
def deposit (bs : Balances) (currency : String) (amount : ℚ) : Balances :=
  if amount < 0 then bs
  else setBalance bs currency (get_balance bs currency + amount)

/-- Embeds `PaperWallet.withdraw`: returns the new ledger and the boolean
result.  Negative amounts and insufficient balances return `false` with no
mutation. -/
def withdraw (bs : Balances) (currency : String) (amount : ℚ) :
    Balances × Bool :=
  if amount < 0 then (bs, false)
  else if amount ≤ get_balance bs currency then
    (setBalance bs currency (get_balance bs currency - amount), true)
  else (bs, false)

/-- A wallet operation, for reasoning about arbitrary call sequences. -/
inductive WalletOp where
  | dep (currency : String) (amount : ℚ)
  | wd (currency : String) (amount : ℚ)
deriving DecidableEq, Repr

/-- Apply one wallet operation (a withdraw's boolean result is dropped;
only the ledger evolution matters for the invariant). -/
def applyOp (bs : Balances) : WalletOp → Balances
  | .dep c a => deposit bs c a
  | .wd c a => (withdraw bs c a).1

/-- All intermediate ledgers along a sequence of operations, the initial
and final states included. -/
def walletStates (bs : Balances) : List WalletOp → List Balances
  | [] => [bs]
  | op :: ops => bs :: walletStates (applyOp bs op) ops

/-- The final ledger after a sequence of operations. -/
def applyOps (bs : Balances) (ops : List WalletOp) : Balances :=
  ops.foldl applyOp bs

end Agora


namespace Agora

/-! ### The order-execution engine (src/execution/order_executor.py) -/

/-- An L2 order-book snapshot: two lists of `(price, volume)` levels. -/
structure Book where
  asks : List (ℚ × ℚ)
  bids : List (ℚ × ℚ)
deriving DecidableEq, Repr

/-- Engine construction-time configuration (`OrderExecutor.__init__`
parameters plus the imported `MIN_TRADE_INTERVAL` constant). -/
structure Config where
  slippage_pct : ℚ
  fee_pct : ℚ
  min_trade_interval : ℚ
deriving DecidableEq, Repr

/-- A trade signal dict.  `side` is `signal.get('side')` (a missing key
behaves like any side other than "buy"/"sell"); `price` is
`signal.get('price')`, `none` when absent. -/
structure Signal where
  side : String
  price : Option ℚ
deriving DecidableEq, Repr

/-- A fill-result dict.  The wall-clock synthetic `id` field and the
constant `status` `'closed'` carry no verification content; `status` is kept,
`id` is dropped. -/
structure Fill where
  side : String
  status : String
  amount : ℚ
  price : ℚ
  cost : ℚ
deriving DecidableEq, Repr

/-- A Python exception escaping the engine. -/
inductive PyErr where
  /-- tuple-unpacking failure of `symbol.split('/')` into `base, quote` -/
  | valueError
  /-- an arithmetic comparison or operation on `None` -/
  | typeError
  /-- `total_cost / amount` with `amount == 0` -/
  | zeroDivisionError
deriving DecidableEq, Repr

/-- Split a character list on a separator character, Python
`str.split(sep)` style: `"" → [""]`, `"/" → ["", ""]`, keeping empty
groups. -/
def splitCharsOn (sep : Char) : List Char → List (List Char)
  | [] => [[]]
  | c :: rest =>
    if c = sep then [] :: splitCharsOn sep rest
    else
      match splitCharsOn sep rest with
      | [] => [[c]]
      | g :: gs => (c :: g) :: gs

/-- Python `s.split(sep)` for a single-character separator; extensionally
the same as `String.splitOn`, but structurally recursive so that concrete
instances evaluate. -/
def pySplit (s : String) (sep : Char) : List String :=
  (splitCharsOn sep s.data).map String.mk

/-- Equality on `Except` results is decidable when it is on both sides. -/
instance instDecEqExcept {ε α : Type} [DecidableEq ε] [DecidableEq α] :
    DecidableEq (Except ε α) := fun x y =>
  match x, y with
  | .error a, .error b =>
    if h : a = b then isTrue (by rw [h])
    else isFalse (by intro hc; injection hc; exact h (by assumption))
  | .error _, .ok _ => isFalse (by intro hc; exact Except.noConfusion hc)
  | .ok _, .error _ => isFalse (by intro hc; exact Except.noConfusion hc)
  | .ok a, .ok b =>
    if h : a = b then isTrue (by rw [h])
    else isFalse (by intro hc; injection hc; exact h (by assumption))

/-- Python truthiness of the `price` argument: `None` and `0` are falsy. -/
def priceFalsy : Option ℚ → Bool
  | none => true
  | some p => p == 0

/-- `order_book['asks'] if side == 'buy' else order_book['bids']`. -/
def relevantLevels (side : String) (book : Book) : List (ℚ × ℚ) :=
  if side = "buy" then book.asks else book.bids

/-- The book-walk loop: returns the accumulated `total_cost` and the final
`remaining_amount`.  Mirrors the `for p, v in levels` loop with its
`if remaining_amount <= 0: break`. -/
def walkBook : List (ℚ × ℚ) → ℚ → ℚ × ℚ
  | [], remaining => (0, remaining)
  | (p, v) :: rest, remaining =>
    let fill := min remaining v
    let remaining' := remaining - fill
    if remaining' ≤ 0 then (fill * p, remaining')
    else
      let w := walkBook rest remaining'
      (fill * p + w.1, w.2)

/-- `levels[-1][0]`: the price of the last (worst) level. -/
def lastLevelPrice (levels : List (ℚ × ℚ)) : ℚ :=
  ((levels.getLast?).getD (0, 0)).1

/-- `last_p * 1.05 if side == 'buy' else last_p * 0.95`. -/
def penaltyPrice (side : String) (last_p : ℚ) : ℚ :=
  if side = "buy" then last_p * 1.05 else last_p * 0.95

/-- `(1 + slippage_pct/100) if side == 'buy' else (1 - slippage_pct/100)`. -/
def slipMult (cfg : Config) (side : String) : ℚ :=
  if side = "buy" then 1 + cfg.slippage_pct / 100 else 1 - cfg.slippage_pct / 100

/-- The `exec_price` computation of `_execute_paper_trade`: book-walk with
depth penalty when a non-empty relevant book side is supplied, otherwise the
flat-slippage fallback on the reference price.  `ZeroDivisionError` models
`total_cost / amount` at `amount == 0`; `TypeError` models the comparisons
`price > 0` (book path, reached after the division) and
`amount * None` (empty-side path) when `price` is `None`. -/
def discoverPrice (cfg : Config) (side : String) (amount : ℚ)
    (price : Option ℚ) (book : Option Book) : Except PyErr ℚ :=
  match book with
  | some bk =>
    match relevantLevels side bk with
    | [] =>
      match price with
      | some p => .ok p
      | none => .error .typeError
    | l :: ls =>
      if amount = 0 then .error .zeroDivisionError
      else
        let walked := walkBook (l :: ls) amount
        let total_cost :=
          if 0 < walked.2 then
            walked.1 + walked.2 * penaltyPrice side (lastLevelPrice (l :: ls))
          else walked.1
        match price with
        | some _ => .ok (total_cost / amount)
        | none => .error .typeError
  | none =>
    match price with
    | some p => .ok (if 0 < p then p * slipMult cfg side else p)
    | none => .error .typeError

/-- Embeds `OrderExecutor._execute_paper_trade`.  Returns the post-call
ledger together with the fill result (`none` models Python `return None`);
`Except.error` models an escaped exception.  The latency simulation has no
observable effect and is omitted. -/
def paperTrade (cfg : Config) (w : Balances) (side : String) (symbol : String)
    (amount : ℚ) (price : Option ℚ) (order_book : Option Book) :
    Except PyErr (Balances × Option Fill) :=
  if priceFalsy price ∧ order_book = none then .ok (w, none)
  else
    match pySplit symbol '/' with
    | [base, quote] =>
      match discoverPrice cfg side amount price order_book with
      | .error e => .error e
      | .ok exec_price =>
        let raw_cost := amount * exec_price
        let total_cost := raw_cost * (1 + cfg.fee_pct / 100)
        let sell_proceeds := raw_cost * (1 - cfg.fee_pct / 100)
        if side = "buy" then
          match withdraw w quote total_cost with
          | (w', true) =>
            .ok (deposit w' base amount,
              some ⟨"buy", "closed", amount, exec_price, total_cost⟩)
          | (w', false) => .ok (w', none)
        else if side = "sell" then
          match withdraw w base amount with
          | (w', true) =>
            .ok (deposit w' quote sell_proceeds,
              some ⟨"sell", "closed", amount, exec_price, sell_proceeds⟩)
          | (w', false) => .ok (w', none)
        else .ok (w, none)
    | _ => .error .valueError

/-- Project the fill result out of a paper-trade outcome. -/
def tradeFill : Except PyErr (Balances × Option Fill) → Option Fill
  | .ok (_, f) => f
  | .error _ => none

/-- Project the post-call ledger out of a paper-trade outcome (an escaped
exception leaves no ledger to observe; `[]` is returned in that case and is
never relied on). -/
def tradeWallet : Except PyErr (Balances × Option Fill) → Balances
  | .ok (w, _) => w
  | .error _ => []

/-- The engine state that survives across calls: the paper wallet's ledger
and the rate-limit timestamp `last_trade_time` (initially `0`). -/
structure ExecSt where
  balances : Balances
  last_trade_time : ℚ
deriving DecidableEq, Repr

/-- Embeds `OrderExecutor.execute_order` in paper-trading mode
(`paper_wallet` set).  `now` is `time.time()` at the call.  Note that the
paper path returns the result of `_execute_paper_trade` directly: the
`self.last_trade_time = current_time` statement further down is reached
only on the live-trading path, so `last_trade_time` is never updated
here. -/
def execute_order (cfg : Config) (st : ExecSt) (now : ℚ)
    (signal : Option Signal) (symbol : String) (amount : ℚ)
    (order_book : Option Book) : Except PyErr (ExecSt × Option Fill) :=
  match signal with
  | none => .ok (st, none)
  | some sig =>
    if sig.side ≠ "buy" ∧ sig.side ≠ "sell" then .ok (st, none)
    else if now - st.last_trade_time < cfg.min_trade_interval then .ok (st, none)
    else
      match paperTrade cfg st.balances sig.side symbol amount sig.price order_book with
      | .error e => .error e
      | .ok (w', fill) => .ok ({ st with balances := w' }, fill)

/-- The hard-coded ladder plan: `(size_mult, price_mult)` per rung. -/
def ladderRungs : List (ℚ × ℚ) := [(0.2, 0.99), (0.3, 0.98), (0.5, 0.96)]

/-- The rung loop of `execute_ladder_order` in paper mode: each rung is a
`'buy'` paper trade of `total_amount * size_mult` at reference price
`current_price * price_mult` with no order book; only truthy (non-`None`)
results are appended to `results`. -/
def runRungs (cfg : Config) (symbol : String) (total_amount current_price : ℚ) :
    List (ℚ × ℚ) → Balances → Except PyErr (Balances × List Fill)
  | [], w => .ok (w, [])
  | (size_mult, price_mult) :: rest, w =>
    match paperTrade cfg w "buy" symbol (total_amount * size_mult)
        (some (current_price * price_mult)) none with
    | .error e => .error e
    | .ok (w', res) =>
      match runRungs cfg symbol total_amount current_price rest w' with
      | .error e => .error e
      | .ok (w'', fills) =>
        .ok (w'', match res with
          | some f => f :: fills
          | none => fills)

/-- Embeds `OrderExecutor.execute_ladder_order` in paper mode: falsy signal,
falsy total amount, or falsy signal price return `None`; otherwise the three
hard-coded rungs run in order and `results if results else None` is
returned.  The `order_book` argument is accepted but never used by the
rungs. -/
def execute_ladder_order (cfg : Config) (w : Balances) (signal : Option Signal)
    (symbol : String) (total_amount : ℚ) (order_book : Option Book) :
    Except PyErr (Balances × Option (List Fill)) :=
  match signal with
  | none => .ok (w, none)
  | some sig =>
    if total_amount = 0 then .ok (w, none)
    else
      match sig.price with
      | none => .ok (w, none)
      | some current_price =>
        if current_price = 0 then .ok (w, none)
        else
          match runRungs cfg symbol total_amount current_price ladderRungs w with
          | .error e => .error e
          | .ok (w', fills) =>
            .ok (w', if fills = [] then none else some fills)

/-! ### Reference notions used to state the claims -/

/-- The `(price, fill)` pairs consumed by the book walk, as the spec
describes it: `fill = min(remaining, volume)` per level, in book order,
stopping once the remainder reaches zero or the levels run out. -/
def consumedFills : List (ℚ × ℚ) → ℚ → List (ℚ × ℚ)
  | [], _ => []
  | (p, v) :: rest, remaining =>
    let fill := min remaining v
    if remaining - fill ≤ 0 then [(p, fill)]
    else (p, fill) :: consumedFills rest (remaining - fill)

/-- Total quantity of a `(price, fill)` list. -/
def fillSum (fs : List (ℚ × ℚ)) : ℚ := (fs.map (fun pf => pf.2)).sum

/-- Total cost (Σ fill · price) of a `(price, fill)` list. -/
def fillCost (fs : List (ℚ × ℚ)) : ℚ := (fs.map (fun pf => pf.2 * pf.1)).sum

/-- Total volume of an order-book side. -/
def totalVolume (levels : List (ℚ × ℚ)) : ℚ := (levels.map (fun l => l.2)).sum

/-- Σ volume · price over a whole order-book side. -/
def sumPV (levels : List (ℚ × ℚ)) : ℚ := (levels.map (fun l => l.2 * l.1)).sum

end Agora

namespace Agora

/-! ### Python reference semantics for `get_all_balances` (C9)

`PaperWallet.get_all_balances` is `return self.balances`: it returns the
wallet's own dict object, not a copy.  To state aliasing facts we model the
Python object store explicitly: a heap maps object references to dict
contents, the wallet holds a reference, and `get_all_balances` returns that
reference. -/

/-- The Python object store: reference → dict contents. -/
abbrev Heap := List (Nat × Balances)

/-- Read an object from the heap (an unallocated reference reads `[]`;
never relied on). -/
def heapGet : Heap → Nat → Balances
  | [], _ => []
  | (r, bs) :: rest, r' => if r = r' then bs else heapGet rest r'

/-- Overwrite an object in the heap. -/
def heapSet : Heap → Nat → Balances → Heap
  | [], r, bs => [(r, bs)]
  | (r0, bs0) :: rest, r, bs =>
    if r0 = r then (r, bs) :: rest else (r0, bs0) :: heapSet rest r bs

/-- A `PaperWallet` object: it holds a reference to its balances dict. -/
structure PaperWalletRef where
  balancesRef : Nat
deriving DecidableEq, Repr

/-- Embeds `PaperWallet.get_all_balances`: `return self.balances` returns
the wallet's own dict reference. -/
def get_all_balances (w : PaperWalletRef) : Nat := w.balancesRef

/-- `get_balance` read through the heap. -/
def balance_of (h : Heap) (w : PaperWalletRef) (c : String) : ℚ :=
  get_balance (heapGet h w.balancesRef) c

/-- A caller mutating a dict it holds a reference to: `d[k] = v`. -/
def dictSetItem (h : Heap) (r : Nat) (k : String) (v : ℚ) : Heap :=
  heapSet h r (setBalance (heapGet h r) k v)


/-! ### Basic ledger lemmas -/

theorem get_balance_setBalance_self (bs : Balances) (c : String) (v : ℚ) :
    get_balance (setBalance bs c v) c = v := by
  induction bs with
  | nil => simp [setBalance, get_balance]
  | cons p rest ih =>
    obtain ⟨pc, pv⟩ := p
    by_cases hp : pc = c
    · rw [setBalance, if_pos hp, get_balance, if_pos rfl]
    · rw [setBalance, if_neg hp, get_balance, if_neg hp]
      exact ih

theorem get_balance_setBalance_other (bs : Balances) (c c' : String) (v : ℚ)
    (h : c' ≠ c) : get_balance (setBalance bs c v) c' = get_balance bs c' := by
  induction bs with
  | nil => simp [setBalance, get_balance, Ne.symm h]
  | cons p rest ih =>
    obtain ⟨pc, pv⟩ := p
    by_cases hp : pc = c
    · rw [setBalance, if_pos hp, get_balance, get_balance,
        if_neg (fun hc => h hc.symm)]
      rw [if_neg (hp ▸ fun hc => h hc.symm)]
    · rw [setBalance, if_neg hp, get_balance, get_balance]
      by_cases hq : pc = c'
      · rw [if_pos hq, if_pos hq]
      · rw [if_neg hq, if_neg hq]
        exact ih

/-- Entrywise non-negativity implies every `get_balance` read is ≥ 0. -/
theorem get_balance_nonneg (bs : Balances) (h : ∀ p ∈ bs, 0 ≤ p.2)
    (c : String) : 0 ≤ get_balance bs c := by
  induction bs with
  | nil => simp [get_balance]
  | cons p rest ih =>
    rw [get_balance]
    by_cases hp : p.1 = c
    · have hv := h p (List.mem_cons_self _ _)
      cases p with
      | mk pc pv => simp only at hp; simp [hp, hv]
    · cases p with
      | mk pc pv =>
        simp only at hp
        rw [if_neg hp]
        exact ih (fun q hq => h q (List.mem_cons_of_mem _ hq))

theorem setBalance_entry_nonneg (bs : Balances) (c : String) (v : ℚ)
    (hbs : ∀ p ∈ bs, 0 ≤ p.2) (hv : 0 ≤ v) :
    ∀ p ∈ setBalance bs c v, 0 ≤ p.2 := by
  induction bs with
  | nil =>
    intro p hp
    rw [setBalance] at hp
    simp only [List.mem_singleton] at hp
    rw [hp]; exact hv
  | cons q rest ih =>
    obtain ⟨qc, qv⟩ := q
    intro p hp
    by_cases hq : qc = c
    · rw [setBalance, if_pos hq] at hp
      rcases List.mem_cons.1 hp with h1 | h1
      · rw [h1]; exact hv
      · exact hbs p (List.mem_cons_of_mem _ h1)
    · rw [setBalance, if_neg hq] at hp
      rcases List.mem_cons.1 hp with h1 | h1
      · rw [h1]; exact hbs _ (List.mem_cons_self _ _)
      · exact ih (fun r hr => hbs r (List.mem_cons_of_mem _ hr)) p h1

theorem deposit_entry_nonneg (bs : Balances) (c : String) (a : ℚ)
    (hbs : ∀ p ∈ bs, 0 ≤ p.2) : ∀ p ∈ deposit bs c a, 0 ≤ p.2 := by
  unfold deposit
  by_cases ha : a < 0
  · simpa [ha] using hbs
  · push_neg at ha
    simp only [not_lt.2 ha, if_neg, not_lt]
    exact setBalance_entry_nonneg bs c _ hbs
      (add_nonneg (get_balance_nonneg bs hbs c) ha)

theorem withdraw_entry_nonneg (bs : Balances) (c : String) (a : ℚ)
    (hbs : ∀ p ∈ bs, 0 ≤ p.2) : ∀ p ∈ (withdraw bs c a).1, 0 ≤ p.2 := by
  unfold withdraw
  by_cases ha : a < 0
  · simpa [ha] using hbs
  · simp only [ha, if_neg, not_false_iff, Bool.false_eq_true]
    by_cases hle : a ≤ get_balance bs c
    · simp only [hle, if_pos]
      exact setBalance_entry_nonneg bs c _ hbs (by linarith [ha, hle])
    · simpa [hle] using hbs

theorem applyOp_entry_nonneg (bs : Balances) (op : WalletOp)
    (hbs : ∀ p ∈ bs, 0 ≤ p.2) : ∀ p ∈ applyOp bs op, 0 ≤ p.2 := by
  cases op with
  | dep c a => exact deposit_entry_nonneg bs c a hbs
  | wd c a => exact withdraw_entry_nonneg bs c a hbs


theorem heapGet_heapSet_self (h : Heap) (r : Nat) (bs : Balances) :
    heapGet (heapSet h r bs) r = bs := by
  induction h with
  | nil => simp [heapSet, heapGet]
  | cons p rest ih =>
    obtain ⟨r0, bs0⟩ := p
    by_cases hr : r0 = r
    · rw [heapSet, if_pos hr, heapGet, if_pos rfl]
    · rw [heapSet, if_neg hr, heapGet, if_neg hr]
      exact ih

end Agora

namespace Agora

/-! ### Settlement lemmas for `paperTrade` -/

/-- A buy paper trade with a well-formed symbol, a computed execution price
and sufficient quote funds settles: the quote asset is debited by
`total_cost = amount · exec_price · (1 + fee_pct/100)` and the base asset is
credited with `amount`. -/
theorem paperTrade_buy_eq (cfg : Config) (w : Balances) (symbol b q : String)
    (amount : ℚ) (price : Option ℚ) (book : Option Book) (ep : ℚ)
    (hni : ¬ (priceFalsy price = true ∧ book = none))
    (hsplit : pySplit symbol '/' = [b, q])
    (hdp : discoverPrice cfg "buy" amount price book = .ok ep)
    (h0 : 0 ≤ amount * ep * (1 + cfg.fee_pct / 100))
    (hf : amount * ep * (1 + cfg.fee_pct / 100) ≤ get_balance w q) :
    paperTrade cfg w "buy" symbol amount price book =
      .ok (deposit (setBalance w q
          (get_balance w q - amount * ep * (1 + cfg.fee_pct / 100))) b amount,
        some ⟨"buy", "closed", amount, ep,
          amount * ep * (1 + cfg.fee_pct / 100)⟩) := by
  unfold paperTrade
  rw [if_neg hni, hsplit, hdp]
  dsimp only
  rw [if_pos rfl]
  unfold withdraw
  rw [if_neg (not_lt.2 h0), if_pos hf]

/-- A sell paper trade with a well-formed symbol, a computed execution price
and sufficient base funds settles: the base asset is debited by `amount` and
the quote asset is credited with
`proceeds = amount · exec_price · (1 - fee_pct/100)`. -/
theorem paperTrade_sell_eq (cfg : Config) (w : Balances) (symbol b q : String)
    (amount : ℚ) (price : Option ℚ) (book : Option Book) (ep : ℚ)
    (hni : ¬ (priceFalsy price = true ∧ book = none))
    (hsplit : pySplit symbol '/' = [b, q])
    (hdp : discoverPrice cfg "sell" amount price book = .ok ep)
    (h0 : 0 ≤ amount)
    (hf : amount ≤ get_balance w b) :
    paperTrade cfg w "sell" symbol amount price book =
      .ok (deposit (setBalance w b (get_balance w b - amount)) q
          (amount * ep * (1 - cfg.fee_pct / 100)),
        some ⟨"sell", "closed", amount, ep,
          amount * ep * (1 - cfg.fee_pct / 100)⟩) := by
  unfold paperTrade
  rw [if_neg hni, hsplit, hdp]
  dsimp only
  rw [if_neg (by decide : ¬ ("sell" : String) = "buy"), if_pos rfl]
  unfold withdraw
  rw [if_neg (not_lt.2 h0), if_pos hf]

/-! ### Book-walk lemmas -/

/-- The book-walk loop computes exactly the cost of the consumed fills, and
its final remainder is the requested amount minus the consumed quantity. -/
theorem walkBook_eq_consumed (levels : List (ℚ × ℚ)) (r : ℚ) :
    walkBook levels r =
      (fillCost (consumedFills levels r), r - fillSum (consumedFills levels r)) := by
  induction levels generalizing r with
  | nil => simp [walkBook, consumedFills, fillCost, fillSum]
  | cons l rest ih =>
    obtain ⟨p, v⟩ := l
    rw [walkBook, consumedFills]
    by_cases hbr : r - min r v ≤ 0
    · rw [if_pos hbr, if_pos hbr]
      simp [fillCost, fillSum]
    · rw [if_neg hbr, if_neg hbr, ih]
      simp only [fillCost, fillSum, List.map_cons, List.sum_cons, Prod.mk.injEq]
      exact ⟨by ring, by ring⟩

/-- When the book's total depth is strictly smaller than the requested
amount, the walk consumes every level in full: the cost is Σ volume·price
over the whole side and the remainder is `amount - totalVolume`. -/
theorem walkBook_exhausted (levels : List (ℚ × ℚ)) (r : ℚ)
    (hvol : ∀ l ∈ levels, 0 ≤ l.2) (hlt : totalVolume levels < r) :
    walkBook levels r = (sumPV levels, r - totalVolume levels) := by
  induction levels generalizing r with
  | nil => simp [walkBook, sumPV, totalVolume]
  | cons l rest ih =>
    obtain ⟨p, v⟩ := l
    have hv : 0 ≤ v := hvol (p, v) (List.mem_cons_self _ _)
    have hrest : ∀ x ∈ rest, 0 ≤ x.2 :=
      fun x hx => hvol x (List.mem_cons_of_mem _ hx)
    have htv : 0 ≤ totalVolume rest := by
      unfold totalVolume
      apply List.sum_nonneg
      intro x hx
      rcases List.mem_map.1 hx with ⟨y, hy, hxy⟩
      exact hxy ▸ hrest y hy
    have htot : totalVolume ((p, v) :: rest) = v + totalVolume rest := by
      simp [totalVolume]
    have hvr : v < r := by
      rw [htot] at hlt; linarith
    have hmin : min r v = v := min_eq_right (le_of_lt hvr)
    rw [walkBook]
    simp only [hmin]
    rw [if_neg (by linarith : ¬ r - v ≤ 0)]
    rw [ih (r - v) hrest (by rw [htot] at hlt; linarith)]
    rw [htot]
    simp only [sumPV, List.map_cons, List.sum_cons, Prod.mk.injEq]
    exact ⟨by ring, by ring⟩

/-- When the book's depth covers the requested positive amount, the walk
ends with remainder exactly zero. -/
theorem walkBook_covered (levels : List (ℚ × ℚ)) (r : ℚ)
    (hvol : ∀ l ∈ levels, 0 ≤ l.2) (hr : 0 < r)
    (hcov : r ≤ totalVolume levels) : (walkBook levels r).2 = 0 := by
  induction levels generalizing r with
  | nil =>
    exfalso
    simp only [totalVolume, List.map_nil, List.sum_nil] at hcov
    linarith
  | cons l rest ih =>
    obtain ⟨p, v⟩ := l
    have hrest : ∀ x ∈ rest, 0 ≤ x.2 :=
      fun x hx => hvol x (List.mem_cons_of_mem _ hx)
    rw [walkBook]
    by_cases hrv : r ≤ v
    · have hmin : min r v = r := min_eq_left hrv
      simp only [hmin]
      rw [if_pos (by linarith : r - r ≤ 0)]
      simp
    · push_neg at hrv
      have hmin : min r v = v := min_eq_right (le_of_lt hrv)
      simp only [hmin]
      rw [if_neg (by linarith : ¬ r - v ≤ 0)]
      have htot : totalVolume ((p, v) :: rest) = v + totalVolume rest := by
        simp [totalVolume]
      exact ih (r - v) hrest (by linarith) (by rw [htot] at hcov; linarith)

/-- Consumed fills are non-negative quantities at the book's prices, so
their total cost is non-negative whenever prices are. -/
theorem fillCost_consumed_nonneg (levels : List (ℚ × ℚ)) (r : ℚ)
    (hp : ∀ l ∈ levels, 0 ≤ l.1) (hv : ∀ l ∈ levels, 0 ≤ l.2) (hr : 0 ≤ r) :
    0 ≤ fillCost (consumedFills levels r) := by
  induction levels generalizing r with
  | nil => simp [consumedFills, fillCost]
  | cons l rest ih =>
    obtain ⟨p, v⟩ := l
    have hp0 : 0 ≤ p := hp (p, v) (List.mem_cons_self _ _)
    have hv0 : 0 ≤ v := hv (p, v) (List.mem_cons_self _ _)
    have hmin : 0 ≤ min r v := le_min hr hv0
    rw [consumedFills]
    by_cases hbr : r - min r v ≤ 0
    · rw [if_pos hbr]
      simp only [fillCost, List.map_cons, List.map_nil, List.sum_cons,
        List.sum_nil, add_zero]
      exact mul_nonneg hmin hp0
    · rw [if_neg hbr]
      simp only [fillCost, List.map_cons, List.sum_cons]
      push_neg at hbr
      have := ih (r - min r v) (fun x hx => hp x (List.mem_cons_of_mem _ hx))
        (fun x hx => hv x (List.mem_cons_of_mem _ hx)) (le_of_lt hbr)
      have h1 : 0 ≤ min r v * p := mul_nonneg hmin hp0
      unfold fillCost at this
      linarith

end Agora

namespace Agora

/-! ### Claim theorems -/

/-- Every ledger along a sequence of wallet operations stays entrywise
non-negative. -/
theorem walletStates_entry_nonneg (ops : List WalletOp) (bs : Balances)
    (h : ∀ p ∈ bs, 0 ≤ p.2) :
    ∀ st ∈ walletStates bs ops, ∀ p ∈ st, 0 ≤ p.2 := by
  induction ops generalizing bs with
  | nil =>
    intro st hst
    rw [walletStates] at hst
    simp only [List.mem_singleton] at hst
    rw [hst]; exact h
  | cons op rest ih =>
    intro st hst
    rw [walletStates] at hst
    rcases List.mem_cons.1 hst with h1 | h1
    · rw [h1]; exact h
    · exact ih (applyOp bs op) (applyOp_entry_nonneg bs op h) st h1

/-- C7: starting from non-negative balances, every intermediate balance of
every asset along any sequence of deposit/withdraw calls stays ≥ 0; a
withdraw exceeding the balance, or with a negative amount, returns `false`
with no mutation; a negative-amount deposit performs no mutation. -/
theorem C7_wallet_invariant (ops : List WalletOp) (bs : Balances)
    (h : ∀ p ∈ bs, 0 ≤ p.2) :
    (∀ st ∈ walletStates bs ops, ∀ c, 0 ≤ get_balance st c)
    ∧ (∀ c a, get_balance bs c < a → withdraw bs c a = (bs, false))
    ∧ (∀ c a, a < 0 → withdraw bs c a = (bs, false))
    ∧ (∀ c a, a < 0 → deposit bs c a = bs) := by
  refine ⟨?_, ?_, ?_, ?_⟩
  · intro st hst c
    exact get_balance_nonneg st (walletStates_entry_nonneg ops bs h st hst) c
  · intro c a hlt
    unfold withdraw
    by_cases hneg : a < 0
    · rw [if_pos hneg]
    · rw [if_neg hneg, if_neg (not_le.2 hlt)]
  · intro c a hneg
    unfold withdraw
    rw [if_pos hneg]
  · intro c a hneg
    unfold deposit
    rw [if_pos hneg]

/-- Witness for C7 at a concrete ledger and operation sequence. -/
theorem C7_witness :
    (0 ≤ get_balance (applyOps [("USD", 1)]
        [WalletOp.dep "USD" 5, WalletOp.wd "USD" 3, WalletOp.wd "USD" 10]) "USD")
    ∧ withdraw [("USD", 1)] "USD" 10 = ([("USD", 1)], false)
    ∧ withdraw [("USD", 1)] "USD" (-2) = ([("USD", 1)], false)
    ∧ deposit [("USD", 1)] "USD" (-2) = [("USD", 1)] := by
  have h := C7_wallet_invariant
    [WalletOp.dep "USD" 5, WalletOp.wd "USD" 3, WalletOp.wd "USD" 10]
    [("USD", 1)] (by decide)
  exact ⟨h.1 _ (by decide) "USD", h.2.1 "USD" 10 (by decide),
    h.2.2.1 "USD" (-2) (by decide), h.2.2.2 "USD" (-2) (by decide)⟩

/-- C9 fails on the code: `get_all_balances` returns the live dict, so a
caller mutating the returned mapping changes a subsequent `balance_of`
read (here from 100 to 5). -/
theorem C9_counterexample :
    balance_of [(0, [("USD", 100)])] ⟨0⟩ "USD" = 100
    ∧ balance_of (dictSetItem [(0, [("USD", 100)])]
        (get_all_balances ⟨0⟩) "USD" 5) ⟨0⟩ "USD" = 5 := by
  constructor
  · decide
  · decide

/-- C9 amended: `get_all_balances` returns the wallet's own balances dict
(not a copy), so writing a key through the returned reference is visible in
every subsequent `balance_of` read of that key. -/
theorem C9_returns_live_reference (h : Heap) (w : PaperWalletRef)
    (c : String) (v : ℚ) :
    balance_of (dictSetItem h (get_all_balances w) c v) w c = v := by
  unfold balance_of dictSetItem get_all_balances
  rw [heapGet_heapSet_self]
  exact get_balance_setBalance_self _ _ _

/-- C4 fails on the code: in paper mode `execute_order` returns the result
of `_execute_paper_trade` before the `last_trade_time = current_time`
statement is reached, so a successful settlement leaves `last_trade_time`
at its initial `0`, and a second call only `0.5` seconds later (with
`min_trade_interval = 1`) is *not* rejected: it settles and mutates the
wallet again. -/
theorem C4_timestamp_never_updated :
    execute_order ⟨0, 0, 1⟩ ⟨[("USD", 1000)], 0⟩ 100
        (some ⟨"buy", some 10⟩) "BTC/USD" 1 none
      = .ok (⟨[("USD", 990), ("BTC", 1)], 0⟩, some ⟨"buy", "closed", 1, 10, 10⟩)
    ∧ execute_order ⟨0, 0, 1⟩ ⟨[("USD", 990), ("BTC", 1)], 0⟩ (100 + 1/2)
        (some ⟨"buy", some 10⟩) "BTC/USD" 1 none
      = .ok (⟨[("USD", 980), ("BTC", 2)], 0⟩, some ⟨"buy", "closed", 1, 10, 10⟩) := by
  constructor
  · decide
  · decide

/-- C8 fails on the code: the constructor never sees the symbol (it is a
per-call argument) and performs no validation; the first paper execution
with a separator-less symbol raises a tuple-unpacking error that escapes
the engine. -/
theorem C8_counterexample :
    execute_order ⟨0, 0, 1⟩ ⟨[("USD", 1000)], 0⟩ 100
        (some ⟨"buy", some 100⟩) "BTCUSD" 1 none = .error .valueError := by
  decide

/-- C8 amended: a symbol whose `split('/')` does not have exactly two
parts is not caught at construction; whenever the paper-trade path reaches
the unpacking (a truthy price or an order book is supplied), a `ValueError`
escapes the engine at first use. -/
theorem C8_malformed_symbol_raises_at_use (cfg : Config) (w : Balances)
    (side symbol : String) (amount : ℚ) (price : Option ℚ) (book : Option Book)
    (hni : ¬ (priceFalsy price = true ∧ book = none))
    (hlen : (pySplit symbol '/').length ≠ 2) :
    paperTrade cfg w side symbol amount price book = .error .valueError := by
  unfold paperTrade
  rw [if_neg hni]
  rcases hs : pySplit symbol '/' with - | ⟨a, - | ⟨b, - | ⟨c, l⟩⟩⟩
  · rfl
  · rfl
  · exact absurd (by rw [hs]; rfl) hlen
  · rfl

/-- Witness for C8's amended statement at symbol `"BTCUSD"`. -/
theorem C8_witness :
    paperTrade ⟨0, 0, 1⟩ [("USD", 1000)] "buy" "BTCUSD" 1 (some 100) none
      = .error .valueError :=
  C8_malformed_symbol_raises_at_use ⟨0, 0, 1⟩ [("USD", 1000)] "buy" "BTCUSD"
    1 (some 100) none (by decide) (by decide)

end Agora

namespace Agora

/-- Unfolding of the hard-coded three-rung loop: the rungs are three
sequential `'buy'` paper trades of `0.2·T`, `0.3·T`, `0.5·T` at reference
prices `0.99·P`, `0.98·P`, `0.96·P`, each with no order book, threading the
wallet, collecting the truthy results in order. -/
theorem runRungs_ladder_eq (cfg : Config) (symbol : String) (T P : ℚ)
    (w : Balances) :
    runRungs cfg symbol T P ladderRungs w =
      (paperTrade cfg w "buy" symbol (T * 0.2) (some (P * 0.99)) none).bind (fun s1 =>
      (paperTrade cfg s1.1 "buy" symbol (T * 0.3) (some (P * 0.98)) none).bind (fun s2 =>
      (paperTrade cfg s2.1 "buy" symbol (T * 0.5) (some (P * 0.96)) none).map (fun s3 =>
        (s3.1, [s1.2, s2.2, s3.2].filterMap id)))) := by
  unfold ladderRungs
  simp only [runRungs]
  cases h1 : paperTrade cfg w "buy" symbol (T * 0.2) (some (P * 0.99)) none with
  | error e => rfl
  | ok s1 =>
    obtain ⟨w1, r1⟩ := s1
    simp only [runRungs, Except.bind]
    cases h2 : paperTrade cfg w1 "buy" symbol (T * 0.3) (some (P * 0.98)) none with
    | error e => rfl
    | ok s2 =>
      obtain ⟨w2, r2⟩ := s2
      simp only [runRungs, Except.bind]
      cases h3 : paperTrade cfg w2 "buy" symbol (T * 0.5) (some (P * 0.96)) none with
      | error e => rfl
      | ok s3 =>
        obtain ⟨w3, r3⟩ := s3
        simp only [runRungs, Except.map]
        cases r1 <;> cases r2 <;> cases r3 <;> rfl

/-- C6: a ladder execution with a truthy signal price and total amount is
exactly three buy-side rungs, settled independently through the paper path
with no order book (whatever `book` was passed), with sizes
`0.2·T, 0.3·T, 0.5·T` at prices `0.99·P, 0.98·P, 0.96·P`, in that order. -/
theorem C6_ladder_plan (cfg : Config) (w : Balances) (sd symbol : String)
    (T P : ℚ) (book : Option Book) (hT : T ≠ 0) (hP : P ≠ 0) :
    execute_ladder_order cfg w (some ⟨sd, some P⟩) symbol T book =
      (paperTrade cfg w "buy" symbol (T * 0.2) (some (P * 0.99)) none).bind (fun s1 =>
      (paperTrade cfg s1.1 "buy" symbol (T * 0.3) (some (P * 0.98)) none).bind (fun s2 =>
      (paperTrade cfg s2.1 "buy" symbol (T * 0.5) (some (P * 0.96)) none).map (fun s3 =>
        (s3.1,
          if [s1.2, s2.2, s3.2].filterMap id = [] then none
          else some ([s1.2, s2.2, s3.2].filterMap id))))) := by
  unfold execute_ladder_order
  dsimp only
  rw [if_neg hT, if_neg hP, runRungs_ladder_eq]
  cases h1 : paperTrade cfg w "buy" symbol (T * 0.2) (some (P * 0.99)) none with
  | error e => rfl
  | ok s1 =>
    obtain ⟨w1, r1⟩ := s1
    simp only [Except.bind]
    cases h2 : paperTrade cfg w1 "buy" symbol (T * 0.3) (some (P * 0.98)) none with
    | error e => rfl
    | ok s2 =>
      obtain ⟨w2, r2⟩ := s2
      simp only [Except.bind]
      cases h3 : paperTrade cfg w2 "buy" symbol (T * 0.5) (some (P * 0.96)) none with
      | error e => rfl
      | ok s3 => rfl

/-- Witness for C6 at the spec's example: total `100` at reference `100`
yields rung fills of amounts `[20, 30, 50]` at prices `[99, 98, 96]`. -/
theorem C6_witness :
    execute_ladder_order ⟨0, 0, 1⟩ [("USD", 100000)]
        (some ⟨"buy", some 100⟩) "BTC/USD" 100 none
      = .ok ([("USD", 90280), ("BTC", 100)],
          some [⟨"buy", "closed", 20, 99, 1980⟩, ⟨"buy", "closed", 30, 98, 2940⟩,
            ⟨"buy", "closed", 50, 96, 4800⟩]) := by
  rw [C6_ladder_plan ⟨0, 0, 1⟩ [("USD", 100000)] "buy" "BTC/USD" 100 100 none
    (by decide) (by decide)]
  decide

/-- C5 fails on the code: with funds for the first rung only, the ladder
call returns a one-element list — failed rungs are skipped entirely by
`if res: results.append(res)`, leaving no `None` gap, so the result does
not have one entry per rung of the plan. -/
theorem C5_counterexample :
    execute_ladder_order ⟨0, 0, 1⟩ [("USD", 2000)]
        (some ⟨"buy", some 100⟩) "BTC/USD" 100 none
      = .ok ([("USD", 20), ("BTC", 20)], some [⟨"buy", "closed", 20, 99, 1980⟩])
    ∧ [(⟨"buy", "closed", 20, 99, 1980⟩ : Fill)].length ≠ ladderRungs.length := by
  constructor
  · decide
  · decide

/-- C5 amended: the ladder call returns the ordered list of the successful
per-rung results only — a failed rung contributes nothing (no `None` gap
marks its position) — and `None` overall when every rung failed. -/
theorem C5_ladder_omits_failed_rungs (cfg : Config) (w w1 w2 w3 : Balances)
    (sd symbol : String) (T P : ℚ) (book : Option Book)
    (r1 r2 r3 : Option Fill) (hT : T ≠ 0) (hP : P ≠ 0)
    (h1 : paperTrade cfg w "buy" symbol (T * 0.2) (some (P * 0.99)) none = .ok (w1, r1))
    (h2 : paperTrade cfg w1 "buy" symbol (T * 0.3) (some (P * 0.98)) none = .ok (w2, r2))
    (h3 : paperTrade cfg w2 "buy" symbol (T * 0.5) (some (P * 0.96)) none = .ok (w3, r3)) :
    execute_ladder_order cfg w (some ⟨sd, some P⟩) symbol T book =
      .ok (w3, if [r1, r2, r3].filterMap id = [] then none
               else some ([r1, r2, r3].filterMap id)) := by
  unfold execute_ladder_order
  dsimp only
  rw [if_neg hT, if_neg hP, runRungs_ladder_eq, h1]
  simp only [Except.bind]
  rw [h2]
  simp only [Except.bind]
  rw [h3]
  simp only [Except.map]

/-- Witness for C5's amended statement: only the first rung is funded, the
other two fail, and the result is the singleton list of the first fill
(the signal's `'sell'` side is ignored — rungs are hard-coded buys). -/
theorem C5_witness :
    execute_ladder_order ⟨0, 0, 1⟩ [("USD", 2000)]
        (some ⟨"sell", some 100⟩) "BTC/USD" 100 none
      = .ok ([("USD", 20), ("BTC", 20)],
          if [some (⟨"buy", "closed", 20, 99, 1980⟩ : Fill), none, none].filterMap id = []
          then none
          else some ([some (⟨"buy", "closed", 20, 99, 1980⟩ : Fill), none, none].filterMap id)) :=
  C5_ladder_omits_failed_rungs ⟨0, 0, 1⟩ [("USD", 2000)] [("USD", 20), ("BTC", 20)]
    [("USD", 20), ("BTC", 20)] [("USD", 20), ("BTC", 20)] "sell" "BTC/USD" 100 100 none
    (some ⟨"buy", "closed", 20, 99, 1980⟩) none none
    (by decide) (by decide) (by decide) (by decide) (by decide)

end Agora

namespace Agora

/-- C1: a paper settlement with sufficient funds moves exactly the spec's
amounts.  For a buy, exactly `total_cost = amount · exec_price ·
(1 + fee_pct/100)` leaves the quote asset and exactly `amount` enters the
base asset; for a sell, exactly `amount` leaves the base asset and exactly
`proceeds = amount · exec_price · (1 - fee_pct/100)` enters the quote
asset, so the stated conservation equations hold exactly. -/
theorem C1_settlement_conservation (cfg : Config) (w : Balances)
    (side symbol b q : String) (amount : ℚ) (price : Option ℚ)
    (book : Option Book) (ep : ℚ)
    (hsplit : pySplit symbol '/' = [b, q])
    (hbq : b ≠ q)
    (hni : ¬ (priceFalsy price = true ∧ book = none))
    (hdp : discoverPrice cfg side amount price book = .ok ep)
    (hamt : 0 ≤ amount) (hep : 0 ≤ ep)
    (hfee0 : 0 ≤ cfg.fee_pct) (hfee100 : cfg.fee_pct ≤ 100)
    (hfunds : if side = "buy"
      then amount * ep * (1 + cfg.fee_pct / 100) ≤ get_balance w q
      else amount ≤ get_balance w b) :
    (side = "buy" →
      tradeFill (paperTrade cfg w side symbol amount price book)
        = some ⟨"buy", "closed", amount, ep, amount * ep * (1 + cfg.fee_pct / 100)⟩
      ∧ get_balance (tradeWallet (paperTrade cfg w side symbol amount price book)) q
          + amount * ep * (1 + cfg.fee_pct / 100) = get_balance w q
      ∧ get_balance (tradeWallet (paperTrade cfg w side symbol amount price book)) b
          = get_balance w b + amount)
    ∧ (side = "sell" →
      tradeFill (paperTrade cfg w side symbol amount price book)
        = some ⟨"sell", "closed", amount, ep, amount * ep * (1 - cfg.fee_pct / 100)⟩
      ∧ get_balance (tradeWallet (paperTrade cfg w side symbol amount price book)) b
          + amount = get_balance w b
      ∧ get_balance (tradeWallet (paperTrade cfg w side symbol amount price book)) q
          = get_balance w q + amount * ep * (1 - cfg.fee_pct / 100)) := by
  constructor
  · intro hb
    subst hb
    rw [if_pos rfl] at hfunds
    have h0 : 0 ≤ amount * ep * (1 + cfg.fee_pct / 100) :=
      mul_nonneg (mul_nonneg hamt hep) (by linarith)
    rw [paperTrade_buy_eq cfg w symbol b q amount price book ep hni hsplit hdp
      h0 hfunds]
    refine ⟨rfl, ?_, ?_⟩
    · show get_balance (deposit (setBalance w q
          (get_balance w q - amount * ep * (1 + cfg.fee_pct / 100))) b amount) q
        + amount * ep * (1 + cfg.fee_pct / 100) = get_balance w q
      unfold deposit
      rw [if_neg (not_lt.2 hamt)]
      rw [get_balance_setBalance_other _ b q _ (Ne.symm hbq)]
      rw [get_balance_setBalance_self]
      ring
    · show get_balance (deposit (setBalance w q
          (get_balance w q - amount * ep * (1 + cfg.fee_pct / 100))) b amount) b
        = get_balance w b + amount
      unfold deposit
      rw [if_neg (not_lt.2 hamt)]
      rw [get_balance_setBalance_self]
      rw [get_balance_setBalance_other _ q b _ hbq]
  · intro hs
    subst hs
    rw [if_neg (by decide : ¬ ("sell" : String) = "buy")] at hfunds
    have hproc : 0 ≤ amount * ep * (1 - cfg.fee_pct / 100) :=
      mul_nonneg (mul_nonneg hamt hep) (by linarith)
    rw [paperTrade_sell_eq cfg w symbol b q amount price book ep hni hsplit hdp
      hamt hfunds]
    refine ⟨rfl, ?_, ?_⟩
    · show get_balance (deposit (setBalance w b (get_balance w b - amount)) q
          (amount * ep * (1 - cfg.fee_pct / 100))) b + amount = get_balance w b
      unfold deposit
      rw [if_neg (not_lt.2 hproc)]
      rw [get_balance_setBalance_other _ q b _ hbq]
      rw [get_balance_setBalance_self]
      ring
    · show get_balance (deposit (setBalance w b (get_balance w b - amount)) q
          (amount * ep * (1 - cfg.fee_pct / 100))) q
        = get_balance w q + amount * ep * (1 - cfg.fee_pct / 100)
      unfold deposit
      rw [if_neg (not_lt.2 hproc)]
      rw [get_balance_setBalance_self]
      rw [get_balance_setBalance_other _ b q _ (Ne.symm hbq)]

/-- Witness for C1: buying 1 BTC at 100 with a 2% fee debits exactly 102
USD and credits exactly 1 BTC. -/
theorem C1_witness :
    tradeFill (paperTrade ⟨0, 2, 1⟩ [("USD", 1000), ("BTC", 5)] "buy" "BTC/USD"
        1 (some 100) none)
      = some ⟨"buy", "closed", 1, 100, 1 * 100 * (1 + 2 / 100)⟩
    ∧ get_balance (tradeWallet (paperTrade ⟨0, 2, 1⟩ [("USD", 1000), ("BTC", 5)]
        "buy" "BTC/USD" 1 (some 100) none)) "USD" + 1 * 100 * (1 + 2 / 100)
      = get_balance [("USD", 1000), ("BTC", 5)] "USD"
    ∧ get_balance (tradeWallet (paperTrade ⟨0, 2, 1⟩ [("USD", 1000), ("BTC", 5)]
        "buy" "BTC/USD" 1 (some 100) none)) "BTC"
      = get_balance [("USD", 1000), ("BTC", 5)] "BTC" + 1 :=
  (C1_settlement_conservation ⟨0, 2, 1⟩ [("USD", 1000), ("BTC", 5)] "buy"
    "BTC/USD" "BTC" "USD" 1 (some 100) none 100 (by decide) (by decide)
    (by decide) (by decide) (by decide) (by decide) (by decide) (by decide)
    (by decide)).1 rfl

/-- C10 fails as stated: with a 1% flat-slippage configuration, an
empty-asks book yields the raw reference price 100, while the very same
call without a book yields 101 — so the empty-book-side case is *not* "as
if the book had not been supplied". -/
theorem C10_counterexample :
    (tradeFill (paperTrade ⟨1, 0, 1⟩ [("USD", 1000)] "buy" "BTC/USD" 1
        (some 100) (some ⟨[], []⟩))).map (fun f => f.price) = some 100
    ∧ (tradeFill (paperTrade ⟨1, 0, 1⟩ [("USD", 1000)] "buy" "BTC/USD" 1
        (some 100) none)).map (fun f => f.price) = some 101
    ∧ (100 : ℚ) ≠ 101 := by
  refine ⟨by decide, by decide, by decide⟩

/-- C10 amended: with a reference price and a book whose relevant side is
empty, the call is not rejected and settles at exactly the raw reference
price — no slippage and no book adjustment, only the fee — unlike the
no-book path, which applies flat slippage. -/
theorem C10_empty_side_raw_price (cfg : Config) (w : Balances)
    (side symbol b q : String) (bk : Book) (amount p : ℚ)
    (hside : side = "buy" ∨ side = "sell")
    (hsplit : pySplit symbol '/' = [b, q])
    (hempty : relevantLevels side bk = [])
    (hamt : 0 ≤ amount) (hp : 0 ≤ p)
    (hfee0 : 0 ≤ cfg.fee_pct)
    (hfunds : if side = "buy"
      then amount * p * (1 + cfg.fee_pct / 100) ≤ get_balance w q
      else amount ≤ get_balance w b) :
    (tradeFill (paperTrade cfg w side symbol amount (some p) (some bk))).map
        (fun f => (f.amount, f.price, f.cost)) =
      some (amount, p,
        if side = "buy" then amount * p * (1 + cfg.fee_pct / 100)
        else amount * p * (1 - cfg.fee_pct / 100)) := by
  have hdp : discoverPrice cfg side amount (some p) (some bk) = .ok p := by
    unfold discoverPrice
    dsimp only
    rw [hempty]
  have hni : ¬ (priceFalsy (some p) = true ∧ (some bk : Option Book) = none) := by
    rintro ⟨-, hc⟩
    exact Option.noConfusion hc
  rcases hside with hb | hs
  · subst hb
    rw [if_pos rfl] at hfunds ⊢
    have h0 : 0 ≤ amount * p * (1 + cfg.fee_pct / 100) :=
      mul_nonneg (mul_nonneg hamt hp) (by linarith)
    rw [paperTrade_buy_eq cfg w symbol b q amount (some p) (some bk) p hni
      hsplit hdp h0 hfunds]
    rfl
  · subst hs
    rw [if_neg (by decide : ¬ ("sell" : String) = "buy")] at hfunds ⊢
    rw [paperTrade_sell_eq cfg w symbol b q amount (some p) (some bk) p hni
      hsplit hdp hamt hfunds]
    rfl

/-- Witness for C10's amended statement: empty asks with slippage
configured at 1% still fill at the raw price 100 with only the 2% fee. -/
theorem C10_witness :
    (tradeFill (paperTrade ⟨1, 2, 1⟩ [("USD", 1000)] "buy" "BTC/USD" 2
        (some 100) (some ⟨[], [(99, 5)]⟩))).map
        (fun f => (f.amount, f.price, f.cost)) =
      some (2, 100,
        if ("buy" : String) = "buy" then 2 * 100 * (1 + (2 : ℚ) / 100)
        else 2 * 100 * (1 - (2 : ℚ) / 100)) :=
  C10_empty_side_raw_price ⟨1, 2, 1⟩ [("USD", 1000)] "buy" "BTC/USD" "BTC"
    "USD" ⟨[], [(99, 5)]⟩ 2 100 (Or.inl rfl) (by decide) (by decide)
    (by decide) (by decide) (by decide) (by decide)

end Agora

namespace Agora

/-- An order-book side with non-negative volumes has non-negative total
volume. -/
theorem totalVolume_nonneg (levels : List (ℚ × ℚ))
    (hvol : ∀ l ∈ levels, 0 ≤ l.2) : 0 ≤ totalVolume levels := by
  unfold totalVolume
  apply List.sum_nonneg
  intro x hx
  rcases List.mem_map.1 hx with ⟨y, hy, hxy⟩
  exact hxy ▸ hvol y hy

/-- An order-book side with non-negative prices and volumes has
non-negative Σ volume·price. -/
theorem sumPV_nonneg (levels : List (ℚ × ℚ))
    (hpr : ∀ l ∈ levels, 0 ≤ l.1) (hvol : ∀ l ∈ levels, 0 ≤ l.2) :
    0 ≤ sumPV levels := by
  unfold sumPV
  apply List.sum_nonneg
  intro x hx
  rcases List.mem_map.1 hx with ⟨y, hy, hxy⟩
  exact hxy ▸ mul_nonneg (hvol y hy) (hpr y hy)

/-- The last level's price is one of the side's prices. -/
theorem lastLevelPrice_nonneg (levels : List (ℚ × ℚ))
    (hne : levels ≠ []) (hpr : ∀ l ∈ levels, 0 ≤ l.1) :
    0 ≤ lastLevelPrice levels := by
  unfold lastLevelPrice
  rw [List.getLast?_eq_getLast_of_ne_nil hne]
  simp only [Option.getD_some]
  exact hpr _ (List.getLast_mem hne)

/-- The depth penalty price stays non-negative for non-negative inputs. -/
theorem penaltyPrice_nonneg (side : String) (last_p : ℚ) (h : 0 ≤ last_p) :
    0 ≤ penaltyPrice side last_p := by
  unfold penaltyPrice
  by_cases hs : side = "buy"
  · rw [if_pos hs]; positivity
  · rw [if_neg hs]; positivity

/-- C2: with enough depth on the relevant side, a paper execution settles
fully, and its execution price is exactly the volume-weighted average price
of the consumed fills: the walk consumes `min(remaining, volume)` per
level in book order, the consumed quantities sum to `amount`, and
`exec_price = Σ fill·price / Σ fill`. -/
theorem C2_book_walk_vwap (cfg : Config) (w : Balances)
    (side symbol b q : String) (bk : Book) (amount p : ℚ)
    (hside : side = "buy" ∨ side = "sell")
    (hsplit : pySplit symbol '/' = [b, q])
    (hvol : ∀ l ∈ relevantLevels side bk, 0 ≤ l.2)
    (hpr : ∀ l ∈ relevantLevels side bk, 0 ≤ l.1)
    (hpos : 0 < amount)
    (hcov : amount ≤ totalVolume (relevantLevels side bk))
    (hfee0 : 0 ≤ cfg.fee_pct)
    (hfunds : if side = "buy"
      then fillCost (consumedFills (relevantLevels side bk) amount)
          * (1 + cfg.fee_pct / 100) ≤ get_balance w q
      else amount ≤ get_balance w b) :
    fillSum (consumedFills (relevantLevels side bk) amount) = amount
    ∧ (tradeFill (paperTrade cfg w side symbol amount (some p) (some bk))).map
        (fun f => (f.amount, f.price)) =
      some (amount,
        fillCost (consumedFills (relevantLevels side bk) amount)
          / fillSum (consumedFills (relevantLevels side bk) amount)) := by
  have hne : relevantLevels side bk ≠ [] := by
    intro h0
    rw [h0] at hcov
    simp only [totalVolume, List.map_nil, List.sum_nil] at hcov
    linarith
  have h2 := walkBook_covered (relevantLevels side bk) amount hvol hpos hcov
  rw [walkBook_eq_consumed] at h2
  simp only at h2
  have hsum : fillSum (consumedFills (relevantLevels side bk) amount) = amount := by
    linarith
  refine ⟨hsum, ?_⟩
  rw [hsum]
  have hwalk : walkBook (relevantLevels side bk) amount
      = (fillCost (consumedFills (relevantLevels side bk) amount), 0) := by
    rw [walkBook_eq_consumed, hsum, sub_self]
  have hC0 : 0 ≤ fillCost (consumedFills (relevantLevels side bk) amount) :=
    fillCost_consumed_nonneg _ amount hpr hvol (le_of_lt hpos)
  have hae : amount * (fillCost (consumedFills (relevantLevels side bk) amount)
      / amount) = fillCost (consumedFills (relevantLevels side bk) amount) := by
    field_simp
  have hdp : discoverPrice cfg side amount (some p) (some bk)
      = .ok (fillCost (consumedFills (relevantLevels side bk) amount) / amount) := by
    unfold discoverPrice
    dsimp only
    rcases hLs : relevantLevels side bk with - | ⟨l, ls⟩
    · exact absurd hLs hne
    · dsimp only
      rw [if_neg (ne_of_gt hpos), ← hLs, hwalk]
      dsimp only
      rw [if_neg (lt_irrefl 0)]
  have hni : ¬ (priceFalsy (some p) = true ∧ (some bk : Option Book) = none) := by
    rintro ⟨-, hc⟩
    exact Option.noConfusion hc
  rcases hside with hb | hs
  · subst hb
    rw [if_pos rfl] at hfunds
    have h0 : 0 ≤ amount
        * (fillCost (consumedFills (relevantLevels "buy" bk) amount) / amount)
        * (1 + cfg.fee_pct / 100) := by
      rw [hae]
      exact mul_nonneg hC0 (by linarith)
    have hf : amount
        * (fillCost (consumedFills (relevantLevels "buy" bk) amount) / amount)
        * (1 + cfg.fee_pct / 100) ≤ get_balance w q := by
      rw [hae]
      exact hfunds
    rw [paperTrade_buy_eq cfg w symbol b q amount (some p) (some bk) _ hni
      hsplit hdp h0 hf]
    rfl
  · subst hs
    rw [if_neg (by decide : ¬ ("sell" : String) = "buy")] at hfunds
    rw [paperTrade_sell_eq cfg w symbol b q amount (some p) (some bk) _ hni
      hsplit hdp (le_of_lt hpos) hfunds]
    rfl

/-- Witness for C2 at the spec's example: asks `[[100,1],[101,2]]` and
amount `2` consume fills summing to `2` and price the trade at the VWAP. -/
theorem C2_witness :
    fillSum (consumedFills (relevantLevels "buy" ⟨[(100, 1), (101, 2)], []⟩) 2) = 2
    ∧ (tradeFill (paperTrade ⟨0, 0, 1⟩ [("USD", 1000)] "buy" "BTC/USD" 2
        (some 100) (some ⟨[(100, 1), (101, 2)], []⟩))).map
        (fun f => (f.amount, f.price)) =
      some (2,
        fillCost (consumedFills (relevantLevels "buy" ⟨[(100, 1), (101, 2)], []⟩) 2)
          / fillSum (consumedFills (relevantLevels "buy" ⟨[(100, 1), (101, 2)], []⟩) 2)) :=
  C2_book_walk_vwap ⟨0, 0, 1⟩ [("USD", 1000)] "buy" "BTC/USD" "BTC" "USD"
    ⟨[(100, 1), (101, 2)], []⟩ 2 100 (Or.inl rfl) (by decide) (by decide)
    (by decide) (by decide) (by decide) (by decide) (by decide)

/-- C3: when the relevant side's total depth is smaller than the requested
amount, the whole side is consumed, the unfilled remainder is priced at
the last (worst) level price shifted 5% against the trader (`×1.05` buy,
`×0.95` sell), `remaining · penalty` is added to the cost, and the call is
not rejected: it settles fully at the blended average. -/
theorem C3_depth_penalty (cfg : Config) (w : Balances)
    (side symbol b q : String) (bk : Book) (amount p : ℚ)
    (hside : side = "buy" ∨ side = "sell")
    (hsplit : pySplit symbol '/' = [b, q])
    (hvol : ∀ l ∈ relevantLevels side bk, 0 ≤ l.2)
    (hpr : ∀ l ∈ relevantLevels side bk, 0 ≤ l.1)
    (hne : relevantLevels side bk ≠ [])
    (hlt : totalVolume (relevantLevels side bk) < amount)
    (hfee0 : 0 ≤ cfg.fee_pct)
    (hfunds : if side = "buy"
      then (sumPV (relevantLevels side bk)
          + (amount - totalVolume (relevantLevels side bk))
            * penaltyPrice side (lastLevelPrice (relevantLevels side bk)))
          * (1 + cfg.fee_pct / 100) ≤ get_balance w q
      else amount ≤ get_balance w b) :
    (tradeFill (paperTrade cfg w side symbol amount (some p) (some bk))).map
        (fun f => (f.amount, f.price)) =
      some (amount,
        (sumPV (relevantLevels side bk)
          + (amount - totalVolume (relevantLevels side bk))
            * penaltyPrice side (lastLevelPrice (relevantLevels side bk)))
          / amount) := by
  have htv : 0 ≤ totalVolume (relevantLevels side bk) :=
    totalVolume_nonneg _ hvol
  have hpos : 0 < amount := lt_of_le_of_lt htv hlt
  have hpen : 0 ≤ penaltyPrice side (lastLevelPrice (relevantLevels side bk)) :=
    penaltyPrice_nonneg side _ (lastLevelPrice_nonneg _ hne hpr)
  have hT0 : 0 ≤ sumPV (relevantLevels side bk)
      + (amount - totalVolume (relevantLevels side bk))
        * penaltyPrice side (lastLevelPrice (relevantLevels side bk)) := by
    have h1 := sumPV_nonneg _ hpr hvol
    have h2 : 0 ≤ (amount - totalVolume (relevantLevels side bk))
        * penaltyPrice side (lastLevelPrice (relevantLevels side bk)) :=
      mul_nonneg (by linarith) hpen
    linarith
  have hwalk := walkBook_exhausted (relevantLevels side bk) amount hvol hlt
  have hae : amount * ((sumPV (relevantLevels side bk)
      + (amount - totalVolume (relevantLevels side bk))
        * penaltyPrice side (lastLevelPrice (relevantLevels side bk))) / amount)
      = sumPV (relevantLevels side bk)
        + (amount - totalVolume (relevantLevels side bk))
          * penaltyPrice side (lastLevelPrice (relevantLevels side bk)) := by
    field_simp
  have hdp : discoverPrice cfg side amount (some p) (some bk)
      = .ok ((sumPV (relevantLevels side bk)
        + (amount - totalVolume (relevantLevels side bk))
          * penaltyPrice side (lastLevelPrice (relevantLevels side bk)))
        / amount) := by
    unfold discoverPrice
    dsimp only
    rcases hLs : relevantLevels side bk with - | ⟨l, ls⟩
    · exact absurd hLs hne
    · dsimp only
      rw [if_neg (ne_of_gt hpos), ← hLs, hwalk]
      dsimp only
      rw [if_pos (by linarith :
        (0 : ℚ) < amount - totalVolume (relevantLevels side bk))]
  have hni : ¬ (priceFalsy (some p) = true ∧ (some bk : Option Book) = none) := by
    rintro ⟨-, hc⟩
    exact Option.noConfusion hc
  rcases hside with hb | hs
  · subst hb
    rw [if_pos rfl] at hfunds
    have h0 : 0 ≤ amount * ((sumPV (relevantLevels "buy" bk)
        + (amount - totalVolume (relevantLevels "buy" bk))
          * penaltyPrice "buy" (lastLevelPrice (relevantLevels "buy" bk))) / amount)
        * (1 + cfg.fee_pct / 100) := by
      rw [hae]
      exact mul_nonneg hT0 (by linarith)
    have hf : amount * ((sumPV (relevantLevels "buy" bk)
        + (amount - totalVolume (relevantLevels "buy" bk))
          * penaltyPrice "buy" (lastLevelPrice (relevantLevels "buy" bk))) / amount)
        * (1 + cfg.fee_pct / 100) ≤ get_balance w q := by
      rw [hae]
      exact hfunds
    rw [paperTrade_buy_eq cfg w symbol b q amount (some p) (some bk) _ hni
      hsplit hdp h0 hf]
    rfl
  · subst hs
    rw [if_neg (by decide : ¬ ("sell" : String) = "buy")] at hfunds
    rw [paperTrade_sell_eq cfg w symbol b q amount (some p) (some bk) _ hni
      hsplit hdp (le_of_lt hpos) hfunds]
    rfl

/-- Witness for C3 at the spec's example: amount `5` against asks
`[[100,1],[101,2]]` fills the remaining `2` at `101·1.05` and settles at
the blended average price. -/
theorem C3_witness :
    (tradeFill (paperTrade ⟨0, 0, 1⟩ [("USD", 1000)] "buy" "BTC/USD" 5
        (some 100) (some ⟨[(100, 1), (101, 2)], []⟩))).map
        (fun f => (f.amount, f.price)) =
      some (5,
        (sumPV (relevantLevels "buy" ⟨[(100, 1), (101, 2)], []⟩)
          + (5 - totalVolume (relevantLevels "buy" ⟨[(100, 1), (101, 2)], []⟩))
            * penaltyPrice "buy"
              (lastLevelPrice (relevantLevels "buy" ⟨[(100, 1), (101, 2)], []⟩)))
          / 5) :=
  C3_depth_penalty ⟨0, 0, 1⟩ [("USD", 1000)] "buy" "BTC/USD" "BTC" "USD"
    ⟨[(100, 1), (101, 2)], []⟩ 5 100 (Or.inl rfl) (by decide) (by decide)
    (by decide) (by decide) (by decide) (by decide) (by decide)

end Agora
